import Mathlib

/-!
Verification development for the pincode sales map visualization.

The definitions below are a shallow embedding of the program's core:
the coordinate cache and geocoder (`src/utils/geocode.js`, given as
`src/unnamed/part_001`) and the aggregation pipeline and visual encoder
inside the `PincodeMap` component (`src/src/components/PincodeMap.jsx`).
Numbers are modelled as rationals, JavaScript `Map`s / plain objects as
association lists, and the asynchronous resolution loop as a pure
trace-producing function parameterized by an oracle for the per-pincode
geocoding outcome.
-/

namespace PincodeVis

/-- A geographic coordinate `[lat, lon]`. -/
abbrev Coord := ℚ × ℚ

/-- A resolved sales record as consumed by the aggregation pipeline:
`pincode`, `sales`, and coordinates guaranteed present. -/
structure Record where
  pincode : String
  sales : ℚ
  coordinates : Coord
deriving DecidableEq

/-- The filter parameters of the view: `searchTerm` is the trimmed search
string (`normalizedSearch` in the component), `minSales` / `maxSales` are
the parsed numeric bounds (`null` when the input field is empty). -/
structure FilterState where
  searchTerm : String
  minSales : Option ℚ
  maxSales : Option ℚ
deriving DecidableEq

/-- The display limit: the literal string `"all"`, a numeric value `n`, or a
non-numeric string (whose `Number` conversion is `NaN`). -/
inductive Limit where
  | all : Limit
  | nan : Limit
  | num : Nat → Limit
deriving DecidableEq

/-- Prefix test on character lists (`pat` begins the second list). -/
def prefixMatches : List Char → List Char → Bool
  | [], _ => true
  | _ :: _, [] => false
  | a :: as, b :: bs => a == b && prefixMatches as bs

/-- Substring occurrence of `pat` at any position of the list. -/
def subListAt (pat : List Char) : List Char → Bool
  | [] => pat.isEmpty
  | c :: cs => prefixMatches pat (c :: cs) || subListAt pat cs

/-- JavaScript `String.prototype.includes`: `s` contains `pat` as a
contiguous substring. -/
def containsSubstr (s pat : String) : Bool :=
  subListAt pat.data s.data

/-- The predicate of `filteredData` in `PincodeMap.jsx` (lines 214-222):
search-term substring match on the pincode string, and inclusive numeric
bounds on `sales` when present. -/
def matchesFilter (fs : FilterState) (r : Record) : Bool :=
  (if fs.searchTerm = "" then true else containsSubstr r.pincode fs.searchTerm)
    && (match fs.minSales with
        | none => true
        | some m => decide (m ≤ r.sales))
    && (match fs.maxSales with
        | none => true
        | some m => decide (r.sales ≤ m))

/-- `filteredData`: the resolved records satisfying the filter state. -/
def filteredData (l : List Record) (fs : FilterState) : List Record :=
  l.filter (matchesFilter fs)

/-- Insert a record into a descending-by-sales sorted list, placing it
before the first element whose sales do not exceed it (so an element
inserted from the left of the original list stays before later ties). -/
def insertDesc (r : Record) : List Record → List Record
  | [] => [r]
  | x :: xs => if x.sales ≤ r.sales then r :: x :: xs else x :: insertDesc r xs

/-- Stable sort by `sales` descending: the embedding of
`[...filteredData].sort((a, b) => b.sales - a.sales)` (ECMAScript sort is
stable). -/
def sortDesc : List Record → List Record
  | [] => []
  | x :: xs => insertDesc x (sortDesc xs)

/-- `displayData` in `PincodeMap.jsx` (lines 225-232): the filtered records
sorted by sales descending; `"all"` keeps everything, a numeric limit
truncates via `slice(0, n)`, and a `NaN` conversion keeps everything. -/
def displayData (l : List Record) (lim : Limit) : List Record :=
  match lim with
  | Limit.all => sortDesc l
  | Limit.nan => sortDesc l
  | Limit.num n => (sortDesc l).take n

theorem mem_insertDesc {y r : Record} {l : List Record}
    (h : y ∈ insertDesc r l) : y = r ∨ y ∈ l := by
  induction l with
  | nil =>
    simp [insertDesc] at h
    exact Or.inl h
  | cons x xs ih =>
    by_cases hc : x.sales ≤ r.sales
    · simp only [insertDesc, if_pos hc, List.mem_cons] at h
      rcases h with h | h | h
      · exact Or.inl h
      · exact Or.inr (by simp [h])
      · exact Or.inr (List.mem_cons_of_mem _ h)
    · simp only [insertDesc, if_neg hc, List.mem_cons] at h
      rcases h with h | h
      · exact Or.inr (by simp [h])
      · rcases ih h with h1 | h1
        · exact Or.inl h1
        · exact Or.inr (List.mem_cons_of_mem _ h1)

theorem pairwise_insertDesc (r : Record) (l : List Record)
    (h : List.Pairwise (fun a b => b.sales ≤ a.sales) l) :
    List.Pairwise (fun a b => b.sales ≤ a.sales) (insertDesc r l) := by
  induction l with
  | nil => simp [insertDesc]
  | cons x xs ih =>
    rcases List.pairwise_cons.mp h with ⟨hx, hxs⟩
    by_cases hc : x.sales ≤ r.sales
    · simp only [insertDesc, if_pos hc]
      refine List.pairwise_cons.mpr ⟨?_, h⟩
      intro y hy
      rcases List.mem_cons.mp hy with hy | hy
      · exact hy ▸ hc
      · exact le_trans (hx y hy) hc
    · simp only [insertDesc, if_neg hc]
      refine List.pairwise_cons.mpr ⟨?_, ih hxs⟩
      intro y hy
      rcases mem_insertDesc hy with hy1 | hy1
      · subst hy1; exact le_of_not_le hc
      · exact hx y hy1

theorem pairwise_sortDesc (l : List Record) :
    List.Pairwise (fun a b => b.sales ≤ a.sales) (sortDesc l) := by
  induction l with
  | nil => simp [sortDesc]
  | cons x xs ih => exact pairwise_insertDesc x (sortDesc xs) ih

theorem filter_insertDesc (s : ℚ) (r : Record) (l : List Record) :
    (insertDesc r l).filter (fun a => decide (a.sales = s))
      = if r.sales = s then
          r :: l.filter (fun a => decide (a.sales = s))
        else l.filter (fun a => decide (a.sales = s)) := by
  induction l with
  | nil =>
    by_cases h : r.sales = s <;> simp [insertDesc, h]
  | cons x xs ih =>
    by_cases hc : x.sales ≤ r.sales
    · simp only [insertDesc, if_pos hc]
      by_cases h : r.sales = s <;> simp [h]
    · simp only [insertDesc, if_neg hc]
      by_cases h : r.sales = s
      · have hx : ¬ x.sales = s := by
          intro hxe
          exact hc (le_of_eq (h ▸ hxe))
        simp [h, hx, ih]
      · by_cases hx : x.sales = s <;> simp [h, hx, ih]

theorem filter_sortDesc (s : ℚ) (l : List Record) :
    (sortDesc l).filter (fun a => decide (a.sales = s))
      = l.filter (fun a => decide (a.sales = s)) := by
  induction l with
  | nil => simp [sortDesc]
  | cons x xs ih =>
    simp only [sortDesc, filter_insertDesc]
    by_cases h : x.sales = s <;> simp [h, ih]

/-- C1: For every list of resolved records and every FilterState, the
display set equals the filtered records sorted by sales descending with
ties preserving the records' original relative order (stable sort: the
subsequence of records carrying any fixed sales value is unchanged), then
truncated to the first N records when the limit is the number N; limit
`"all"` keeps every record, and any non-numeric limit value is treated as
`"all"`. -/
theorem display_set_stable_sorted_limited (l : List Record) (fs : FilterState) :
    List.Pairwise (fun a b => b.sales ≤ a.sales)
      (displayData (filteredData l fs) Limit.all)
    ∧ (∀ s : ℚ, (displayData (filteredData l fs) Limit.all).filter
          (fun a => decide (a.sales = s))
        = (filteredData l fs).filter (fun a => decide (a.sales = s)))
    ∧ (∀ n : Nat, displayData (filteredData l fs) (Limit.num n)
        = (displayData (filteredData l fs) Limit.all).take n)
    ∧ displayData (filteredData l fs) Limit.nan
        = displayData (filteredData l fs) Limit.all := by
  refine ⟨pairwise_sortDesc _, ?_, ?_, rfl⟩
  · intro s
    exact filter_sortDesc s (filteredData l fs)
  · intro n
    rfl

/-- C2: a resolved record passes the filter exactly when the search term is
empty or occurs as a substring of the pincode, the minimum-sales bound is
absent or at most the record's sales, and the maximum-sales bound is absent
or at least the record's sales; both numeric bounds are inclusive, so a
record whose sales equal a present bound is kept. -/
theorem filter_membership_iff (l : List Record) (fs : FilterState) (r : Record) :
    (r ∈ filteredData l fs
      ↔ r ∈ l
        ∧ (fs.searchTerm = "" ∨ containsSubstr r.pincode fs.searchTerm = true)
        ∧ (fs.minSales = none ∨ ∃ m, fs.minSales = some m ∧ m ≤ r.sales)
        ∧ (fs.maxSales = none ∨ ∃ m, fs.maxSales = some m ∧ r.sales ≤ m))
    ∧ ((r ∈ l ∧ fs.searchTerm = ""
          ∧ fs.minSales = some r.sales ∧ fs.maxSales = some r.sales)
        → r ∈ filteredData l fs) := by
  constructor
  · rw [filteredData, List.mem_filter]
    constructor
    · rintro ⟨hm, hf⟩
      refine ⟨hm, ?_, ?_, ?_⟩
      · simp only [matchesFilter, Bool.and_eq_true] at hf
        by_cases hs : fs.searchTerm = ""
        · exact Or.inl hs
        · refine Or.inr ?_
          have := hf.1.1
          rwa [if_neg hs] at this
      · simp only [matchesFilter, Bool.and_eq_true] at hf
        cases hmin : fs.minSales with
        | none => exact Or.inl rfl
        | some m =>
          refine Or.inr ⟨m, rfl, ?_⟩
          have := hf.1.2
          rw [hmin] at this
          exact of_decide_eq_true this
      · simp only [matchesFilter, Bool.and_eq_true] at hf
        cases hmax : fs.maxSales with
        | none => exact Or.inl rfl
        | some m =>
          refine Or.inr ⟨m, rfl, ?_⟩
          have := hf.2
          rw [hmax] at this
          exact of_decide_eq_true this
    · rintro ⟨hm, hsearch, hmin, hmax⟩
      refine ⟨hm, ?_⟩
      simp only [matchesFilter, Bool.and_eq_true]
      refine ⟨⟨?_, ?_⟩, ?_⟩
      · rcases hsearch with hs | hs
        · rw [if_pos hs]
        · by_cases hse : fs.searchTerm = ""
          · rw [if_pos hse]
          · rw [if_neg hse]; exact hs
      · rcases hmin with hs | ⟨m, hm1, hm2⟩
        · rw [hs]
        · rw [hm1]; exact decide_eq_true hm2
      · rcases hmax with hs | ⟨m, hm1, hm2⟩
        · rw [hs]
        · rw [hm1]; exact decide_eq_true hm2
  · rintro ⟨hm, hs, hmin, hmax⟩
    rw [filteredData, List.mem_filter]
    refine ⟨hm, ?_⟩
    simp [matchesFilter, hs, hmin, hmax]

/-- Witness: C2 at a record whose sales equal both present bounds — the
inclusive bounds keep it. -/
theorem filter_membership_iff_witness :
    (⟨"110001", 5, (0, 0)⟩ : Record)
      ∈ filteredData [⟨"110001", 5, (0, 0)⟩] ⟨"", some 5, some 5⟩ :=
  (filter_membership_iff [⟨"110001", 5, (0, 0)⟩] ⟨"", some 5, some 5⟩
      ⟨"110001", 5, (0, 0)⟩).2 ⟨by decide, rfl, rfl, rfl⟩

/-- `Math.min(...values)` over a non-empty argument list (call sites never
pass an empty list; `0` is the out-of-domain value). -/
def listMin : List ℚ → ℚ
  | [] => 0
  | x :: xs => xs.foldl min x

/-- `Math.max(...values)` over a non-empty argument list. -/
def listMax : List ℚ → ℚ
  | [] => 0
  | x :: xs => xs.foldl max x

theorem foldl_min_le_init (l : List ℚ) (a : ℚ) : l.foldl min a ≤ a := by
  induction l generalizing a with
  | nil => exact le_rfl
  | cons x xs ih => exact le_trans (ih (min a x)) (min_le_left a x)

theorem foldl_min_le_mem {x : ℚ} {l : List ℚ} (a : ℚ) (h : x ∈ l) :
    l.foldl min a ≤ x := by
  induction l generalizing a with
  | nil => cases h
  | cons y ys ih =>
    rcases List.mem_cons.mp h with h1 | h1
    · subst h1
      exact le_trans (foldl_min_le_init ys (min a x)) (min_le_right a x)
    · exact ih (min a y) h1

theorem init_le_foldl_max (l : List ℚ) (a : ℚ) : a ≤ l.foldl max a := by
  induction l generalizing a with
  | nil => exact le_rfl
  | cons x xs ih => exact le_trans (le_max_left a x) (ih (max a x))

theorem mem_le_foldl_max {x : ℚ} {l : List ℚ} (a : ℚ) (h : x ∈ l) :
    x ≤ l.foldl max a := by
  induction l generalizing a with
  | nil => cases h
  | cons y ys ih =>
    rcases List.mem_cons.mp h with h1 | h1
    · subst h1
      exact le_trans (le_max_right a x) (init_le_foldl_max ys (max a x))
    · exact ih (max a y) h1

theorem listMin_le {x : ℚ} {l : List ℚ} (h : x ∈ l) : listMin l ≤ x := by
  cases l with
  | nil => cases h
  | cons y ys =>
    rcases List.mem_cons.mp h with h1 | h1
    · subst h1; exact foldl_min_le_init ys x
    · exact foldl_min_le_mem y h1

theorem le_listMax {x : ℚ} {l : List ℚ} (h : x ∈ l) : x ≤ listMax l := by
  cases l with
  | nil => cases h
  | cons y ys =>
    rcases List.mem_cons.mp h with h1 | h1
    · subst h1; exact init_le_foldl_max ys x
    · exact mem_le_foldl_max y h1

theorem foldl_max_mem (l : List ℚ) (a : ℚ) :
    l.foldl max a = a ∨ l.foldl max a ∈ l := by
  induction l generalizing a with
  | nil => exact Or.inl rfl
  | cons x xs ih =>
    rcases ih (max a x) with h | h
    · rcases max_choice a x with hm | hm
      · exact Or.inl (by rw [List.foldl_cons, h, hm])
      · refine Or.inr ?_
        rw [List.foldl_cons, h, hm]
        exact List.mem_cons_self x xs
    · exact Or.inr (List.mem_cons_of_mem x h)

theorem listMax_mem {l : List ℚ} (h : l ≠ []) : listMax l ∈ l := by
  cases l with
  | nil => exact absurd rfl h
  | cons y ys =>
    rcases foldl_max_mem ys y with h1 | h1
    · rw [listMax, h1]
      exact List.mem_cons_self y ys
    · exact List.mem_cons_of_mem y h1

/-- `totalSales` (line 288): `displayData.reduce((sum, item) => sum + item.sales, 0)`. -/
def totalSales (d : List Record) : ℚ :=
  d.foldl (fun sum item => sum + item.sales) 0

/-- `averageSales` (line 291): total over count when the display set is
non-empty, otherwise `0`. -/
def averageSales (d : List Record) : ℚ :=
  if 0 < d.length then totalSales d / (d.length : ℚ) else 0

/-- `maxDisplaySales` (lines 292-294): the maximum displayed sales value,
`0` when the display set is empty. -/
def maxDisplaySales (d : List Record) : ℚ :=
  if 0 < d.length then listMax (d.map (fun item => item.sales)) else 0

theorem foldl_add_sales (d : List Record) (a : ℚ) :
    d.foldl (fun sum item => sum + item.sales) a
      = a + (d.map (fun item => item.sales)).sum := by
  induction d generalizing a with
  | nil => simp
  | cons x xs ih =>
    rw [List.foldl_cons, ih, List.map_cons, List.sum_cons]
    ring

/-- C7: `totalSales` is the sum of the displayed sales values,
`averageSales` is the total divided by the number of displayed records, and
`maxDisplaySales` is the greatest displayed sales value; on the empty
display set all three statistics are `0` (no division-by-zero fault). -/
theorem display_stats_correct (d : List Record) :
    totalSales d = (d.map (fun item => item.sales)).sum
    ∧ (d = [] → totalSales d = 0 ∧ averageSales d = 0 ∧ maxDisplaySales d = 0)
    ∧ (d ≠ [] →
        averageSales d = totalSales d / (d.length : ℚ)
        ∧ maxDisplaySales d ∈ d.map (fun item => item.sales)
        ∧ ∀ s ∈ d.map (fun item => item.sales), s ≤ maxDisplaySales d) := by
  refine ⟨?_, ?_, ?_⟩
  · rw [totalSales, foldl_add_sales, zero_add]
  · intro h
    subst h
    refine ⟨rfl, ?_, ?_⟩ <;> simp [averageSales, maxDisplaySales]
  · intro h
    have hlen : 0 < d.length := List.length_pos.mpr h
    refine ⟨?_, ?_, ?_⟩
    · rw [averageSales, if_pos hlen]
    · rw [maxDisplaySales, if_pos hlen]
      exact listMax_mem (by simpa using h)
    · intro s hs
      rw [maxDisplaySales, if_pos hlen]
      exact le_listMax hs

/-- Witness: C7 on the spec's example display set. -/
theorem display_stats_correct_witness :
    averageSales
        [⟨"1", 100, (0, 0)⟩, ⟨"2", 300, (0, 0)⟩, ⟨"3", 200, (0, 0)⟩]
      = totalSales
          [⟨"1", 100, (0, 0)⟩, ⟨"2", 300, (0, 0)⟩, ⟨"3", 200, (0, 0)⟩]
        / ((3 : Nat) : ℚ) :=
  ((display_stats_correct
      [⟨"1", 100, (0, 0)⟩, ⟨"2", 300, (0, 0)⟩, ⟨"3", 200, (0, 0)⟩]).2.2
    (by decide)).1

/-- The value returned by `getColor`: either a fixed hex string or an
`rgb(r, g, b)` triple of integer channels. -/
inductive ColorResult where
  | hex : String → ColorResult
  | rgb : ℤ → ℤ → ℤ → ColorResult
deriving DecidableEq

theorem ratFloor_eq_floor (q : ℚ) : Rat.floor q = ⌊q⌋ := by
  rw [Rat.floor_def', Rat.floor_def]

/-- `getColor` (lines 241-249): the neutral color when max equals min,
otherwise a blue-to-red gradient with floored channels
(`Math.floor` is `Rat.floor`). -/
def getColor (minSales maxSales sales : ℚ) : ColorResult :=
  if maxSales = minSales then ColorResult.hex "#3388ff"
  else
    let ratio := (sales - minSales) / (maxSales - minSales)
    ColorResult.rgb (Rat.floor (50 + 205 * ratio))
      (Rat.floor (100 * (1 - ratio))) (Rat.floor (200 + 55 * (1 - ratio)))

/-- `getRadius` (lines 252-256): fixed `8` when max equals min, otherwise
`5 + ratio * 20`. -/
def getRadius (minSales maxSales sales : ℚ) : ℚ :=
  if maxSales = minSales then 8
  else 5 + (sales - minSales) / (maxSales - minSales) * 20

/-- C8: on a display set with sales minimum `mn` and maximum `mx`, the
encoder returns the fixed neutral color and radius `8` when `mx = mn`;
otherwise, for a displayed sales value (`mn ≤ s ≤ mx`), it returns the RGB
triple `(⌊50 + 205·ρ⌋, ⌊100·(1 − ρ)⌋, ⌊200 + 55·(1 − ρ)⌋)` with every
channel an integer in `[0, 255]`, and the radius `5 + 20·ρ`, which lies in
`[5, 25]`. -/
theorem visual_encoder_correct (mn mx s : ℚ) (h1 : mn ≤ s) (h2 : s ≤ mx) :
    (mx = mn → getColor mn mx s = ColorResult.hex "#3388ff" ∧ getRadius mn mx s = 8)
    ∧ (mx ≠ mn →
        getColor mn mx s
          = ColorResult.rgb ⌊50 + 205 * ((s - mn) / (mx - mn))⌋
              ⌊100 * (1 - (s - mn) / (mx - mn))⌋
              ⌊200 + 55 * (1 - (s - mn) / (mx - mn))⌋
        ∧ (0 ≤ ⌊50 + 205 * ((s - mn) / (mx - mn))⌋
            ∧ ⌊50 + 205 * ((s - mn) / (mx - mn))⌋ ≤ 255)
        ∧ (0 ≤ ⌊100 * (1 - (s - mn) / (mx - mn))⌋
            ∧ ⌊100 * (1 - (s - mn) / (mx - mn))⌋ ≤ 255)
        ∧ (0 ≤ ⌊200 + 55 * (1 - (s - mn) / (mx - mn))⌋
            ∧ ⌊200 + 55 * (1 - (s - mn) / (mx - mn))⌋ ≤ 255)
        ∧ getRadius mn mx s = 5 + 20 * ((s - mn) / (mx - mn))
        ∧ 5 ≤ getRadius mn mx s ∧ getRadius mn mx s ≤ 25) := by
  constructor
  · intro h
    exact ⟨by rw [getColor, if_pos h], by rw [getRadius, if_pos h]⟩
  · intro h
    have hlt : mn < mx := lt_of_le_of_ne (h1.trans h2) (fun he => h he.symm)
    have hd : (0 : ℚ) < mx - mn := sub_pos.mpr hlt
    have hr0 : (0 : ℚ) ≤ (s - mn) / (mx - mn) := div_nonneg (sub_nonneg.mpr h1) hd.le
    have hr1 : (s - mn) / (mx - mn) ≤ 1 := (div_le_one hd).mpr (sub_le_sub_right h2 mn)
    have hradius : getRadius mn mx s = 5 + 20 * ((s - mn) / (mx - mn)) := by
      rw [getRadius, if_neg h]; ring
    refine ⟨?_, ⟨?_, ?_⟩, ⟨?_, ?_⟩, ⟨?_, ?_⟩, hradius, ?_, ?_⟩
    · rw [getColor, if_neg h]
      simp only [ratFloor_eq_floor]
    · exact Int.le_floor.mpr (by push_cast; linarith)
    · have hle : (50 : ℚ) + 205 * ((s - mn) / (mx - mn)) ≤ 255 := by linarith
      exact_mod_cast le_trans (Int.floor_le _) hle
    · exact Int.le_floor.mpr (by push_cast; nlinarith)
    · have hle : (100 : ℚ) * (1 - (s - mn) / (mx - mn)) ≤ 255 := by nlinarith
      exact_mod_cast le_trans (Int.floor_le _) hle
    · exact Int.le_floor.mpr (by push_cast; nlinarith)
    · have hle : (200 : ℚ) + 55 * (1 - (s - mn) / (mx - mn)) ≤ 255 := by nlinarith
      exact_mod_cast le_trans (Int.floor_le _) hle
    · rw [hradius]; linarith
    · rw [hradius]; linarith

/-- Witness: C8 at the degenerate display set `mn = mx = 5`, `s = 5`. -/
theorem visual_encoder_correct_witness :
    getColor 5 5 5 = ColorResult.hex "#3388ff" ∧ getRadius 5 5 5 = 8 :=
  (visual_encoder_correct 5 5 5 le_rfl le_rfl).1 rfl

/-- `salesValues` (lines 234-236): the displayed sales values, replaced by
`[0]` when the display set is empty. -/
def salesValues (d : List Record) : List ℚ :=
  if 0 < d.length then d.map (fun item => item.sales) else [0]

/-- `minSales` (line 237): `Math.min` over `salesValues`, with an
unreachable `0` fallback for an empty list. -/
def minSalesOf (d : List Record) : ℚ :=
  if 0 < (salesValues d).length then listMin (salesValues d) else 0

/-- `maxSales` (line 238): `Math.max` over `salesValues`, with an
unreachable `1` fallback for an empty list. -/
def maxSalesOf (d : List Record) : ℚ :=
  if 0 < (salesValues d).length then listMax (salesValues d) else 1

/-- C10: when the display set is empty the encoder's parameters min and max
both default to `0` (the empty sales list is replaced by `[0]`), so the
`max == min` guard fires for every sales input: `getColor` always returns
the fixed neutral color `"#3388ff"`, `getRadius` always returns `8`, and
the division branch is never taken. -/
theorem empty_display_encoder_defaults (d : List Record) (h : d = []) :
    minSalesOf d = 0 ∧ maxSalesOf d = 0
    ∧ ∀ s : ℚ, getColor (minSalesOf d) (maxSalesOf d) s = ColorResult.hex "#3388ff"
        ∧ getRadius (minSalesOf d) (maxSalesOf d) s = 8 := by
  subst h
  have hmin : minSalesOf [] = 0 := by
    simp [minSalesOf, salesValues, listMin]
  have hmax : maxSalesOf [] = 0 := by
    simp [maxSalesOf, salesValues, listMax]
  refine ⟨hmin, hmax, ?_⟩
  intro s
  rw [hmin, hmax]
  exact ⟨by rw [getColor, if_pos rfl], by rw [getRadius, if_pos rfl]⟩

/-- Witness: C10 on the empty display set at sales input `7`. -/
theorem empty_display_encoder_defaults_witness :
    getColor (minSalesOf []) (maxSalesOf []) 7 = ColorResult.hex "#3388ff" :=
  ((empty_display_encoder_defaults [] rfl).2.2 7).1

/-- The sales minimum of a record list (`Math.min(...values)` in
`heatmapGroups`). -/
def dMin (d : List Record) : ℚ := listMin (d.map (fun item => item.sales))

/-- The sales maximum of a record list (`Math.max(...values)` in
`heatmapGroups`). -/
def dMax (d : List Record) : ℚ := listMax (d.map (fun item => item.sales))

/-- The normalized sales ratio of `heatmapGroups` (line 275):
`range === 0 ? 0.5 : (item.sales - minValue) / range`. -/
def ratioOf (mn mx s : ℚ) : ℚ :=
  if mx - mn = 0 then 0.5 else (s - mn) / (mx - mn)

/-- The heat intensity of `heatmapGroups` (line 276):
`range === 0 ? 0.6 : 0.2 + 0.8 * ratio`. -/
def heatIntensity (mn mx s : ℚ) : ℚ :=
  if mx - mn = 0 then 0.6 else 0.2 + 0.8 * ratioOf mn mx s

/-- The bucket index of `heatmapGroups` (line 277):
`ratio < 0.33 ? 0 : ratio < 0.66 ? 1 : 2`. -/
def bucketIdx (ratio : ℚ) : Fin 3 :=
  if ratio < 0.33 then 0 else if ratio < 0.66 then 1 else 2

/-- One heat bucket: id, draw parameters, and `[lat, lng, intensity]`
points. -/
structure HeatBucket where
  id : String
  radius : ℚ
  blur : ℚ
  points : List (ℚ × ℚ × ℚ)
deriving DecidableEq

/-- The `[lat, lng, intensity]` point pushed for one record. -/
def pointOf (mn mx : ℚ) (item : Record) : ℚ × ℚ × ℚ :=
  (item.coordinates.1, item.coordinates.2, heatIntensity mn mx item.sales)

/-- The records landing in bucket `i`: the `forEach` push of
`heatmapGroups` partitions the display set by `bucketIdx`, preserving
order. -/
def bucketRecords (d : List Record) (i : Fin 3) : List Record :=
  d.filter (fun item => decide (bucketIdx (ratioOf (dMin d) (dMax d) item.sales) = i))

/-- `heatmapGroups` (lines 262-286): empty display set yields no buckets;
otherwise the three buckets `low`/`mid`/`high` are filled by ratio tertile
and buckets without points are dropped. -/
def heatmapGroups (d : List Record) : List HeatBucket :=
  if d.length = 0 then []
  else
    ([⟨"low", 18, 14, (bucketRecords d 0).map (pointOf (dMin d) (dMax d))⟩,
      ⟨"mid", 28, 20, (bucketRecords d 1).map (pointOf (dMin d) (dMax d))⟩,
      ⟨"high", 38, 26, (bucketRecords d 2).map (pointOf (dMin d) (dMax d))⟩]).filter
      (fun b => !b.points.isEmpty)

theorem ratioOf_bounds {d : List Record} {r : Record} (hr : r ∈ d) :
    0 ≤ ratioOf (dMin d) (dMax d) r.sales ∧ ratioOf (dMin d) (dMax d) r.sales ≤ 1 := by
  have hmem : r.sales ∈ d.map (fun item => item.sales) :=
    List.mem_map_of_mem (fun item => item.sales) hr
  have hmn : dMin d ≤ r.sales := listMin_le hmem
  have hmx : r.sales ≤ dMax d := le_listMax hmem
  by_cases h : dMax d - dMin d = 0
  · rw [ratioOf, if_pos h]
    norm_num
  · rw [ratioOf, if_neg h]
    have hd : 0 < dMax d - dMin d :=
      lt_of_le_of_ne (by linarith) (Ne.symm h)
    exact ⟨div_nonneg (by linarith) hd.le,
      (div_le_one hd).mpr (by linarith)⟩

theorem heatIntensity_eq (mn mx s : ℚ) :
    heatIntensity mn mx s = 0.2 + 0.8 * ratioOf mn mx s := by
  by_cases h : mx - mn = 0
  · rw [heatIntensity, if_pos h, ratioOf, if_pos h]
    norm_num
  · rw [heatIntensity, if_neg h]

/-- C6: for every non-empty display set, each record's heat intensity
equals `0.2 + 0.8·ratio` (with `ratio = (sales − min)/(max − min)`, defined
as `0.5` when `max = min`), always lies in `[0.2, 1.0]` and is never zero;
the record lands in exactly one bucket, with index `0` (low) iff
`ratio < 0.33`, index `1` (mid) iff `0.33 ≤ ratio < 0.66` and index `2`
(high) otherwise, its point is among that bucket's points, and every
bucket returned by `heatmapGroups` has at least one point. -/
theorem heat_bucketing_correct (d : List Record) (r : Record)
    (hne : d ≠ []) (hr : r ∈ d) :
    heatIntensity (dMin d) (dMax d) r.sales
        = 0.2 + 0.8 * ratioOf (dMin d) (dMax d) r.sales
    ∧ 0.2 ≤ heatIntensity (dMin d) (dMax d) r.sales
    ∧ heatIntensity (dMin d) (dMax d) r.sales ≤ 1
    ∧ heatIntensity (dMin d) (dMax d) r.sales ≠ 0
    ∧ (∀ i : Fin 3, r ∈ bucketRecords d i
        ↔ bucketIdx (ratioOf (dMin d) (dMax d) r.sales) = i)
    ∧ (bucketIdx (ratioOf (dMin d) (dMax d) r.sales) = 0
        ↔ ratioOf (dMin d) (dMax d) r.sales < 0.33)
    ∧ (bucketIdx (ratioOf (dMin d) (dMax d) r.sales) = 1
        ↔ (0.33 ≤ ratioOf (dMin d) (dMax d) r.sales
            ∧ ratioOf (dMin d) (dMax d) r.sales < 0.66))
    ∧ (bucketIdx (ratioOf (dMin d) (dMax d) r.sales) = 2
        ↔ 0.66 ≤ ratioOf (dMin d) (dMax d) r.sales)
    ∧ pointOf (dMin d) (dMax d) r
        ∈ (bucketRecords d (bucketIdx (ratioOf (dMin d) (dMax d) r.sales))).map
            (pointOf (dMin d) (dMax d))
    ∧ (∀ b ∈ heatmapGroups d, b.points ≠ []) := by
  obtain ⟨hρ0, hρ1⟩ := ratioOf_bounds hr
  have hint := heatIntensity_eq (dMin d) (dMax d) r.sales
  have hmemb : ∀ i : Fin 3, r ∈ bucketRecords d i
      ↔ bucketIdx (ratioOf (dMin d) (dMax d) r.sales) = i := by
    intro i
    rw [bucketRecords, List.mem_filter]
    constructor
    · rintro ⟨_, hdec⟩
      exact of_decide_eq_true hdec
    · intro hi
      exact ⟨hr, decide_eq_true hi⟩
  have hidx0 : bucketIdx (ratioOf (dMin d) (dMax d) r.sales) = 0
      ↔ ratioOf (dMin d) (dMax d) r.sales < 0.33 := by
    rw [bucketIdx]
    by_cases h33 : ratioOf (dMin d) (dMax d) r.sales < 0.33
    · rw [if_pos h33]
      exact ⟨fun _ => h33, fun _ => rfl⟩
    · rw [if_neg h33]
      by_cases h66 : ratioOf (dMin d) (dMax d) r.sales < 0.66
      · rw [if_pos h66]
        exact ⟨fun h => absurd h (by decide), fun hlt => absurd hlt h33⟩
      · rw [if_neg h66]
        exact ⟨fun h => absurd h (by decide), fun hlt => absurd hlt h33⟩
  have hidx1 : bucketIdx (ratioOf (dMin d) (dMax d) r.sales) = 1
      ↔ (0.33 ≤ ratioOf (dMin d) (dMax d) r.sales
          ∧ ratioOf (dMin d) (dMax d) r.sales < 0.66) := by
    rw [bucketIdx]
    by_cases h33 : ratioOf (dMin d) (dMax d) r.sales < 0.33
    · rw [if_pos h33]
      constructor
      · intro h0
        exact absurd h0 (by decide)
      · rintro ⟨hle, _⟩
        exact absurd h33 (not_lt.mpr hle)
    · rw [if_neg h33]
      by_cases h66 : ratioOf (dMin d) (dMax d) r.sales < 0.66
      · rw [if_pos h66]
        exact ⟨fun _ => ⟨not_lt.mp h33, h66⟩, fun _ => rfl⟩
      · rw [if_neg h66]
        constructor
        · intro h2
          exact absurd h2 (by decide)
        · rintro ⟨_, hlt⟩
          exact absurd hlt h66
  have hidx2 : bucketIdx (ratioOf (dMin d) (dMax d) r.sales) = 2
      ↔ 0.66 ≤ ratioOf (dMin d) (dMax d) r.sales := by
    rw [bucketIdx]
    by_cases h33 : ratioOf (dMin d) (dMax d) r.sales < 0.33
    · rw [if_pos h33]
      constructor
      · intro h2
        exact absurd h2 (by decide)
      · intro hle
        exfalso
        have : (0.33 : ℚ) ≤ 0.66 := by norm_num
        linarith
    · rw [if_neg h33]
      by_cases h66 : ratioOf (dMin d) (dMax d) r.sales < 0.66
      · rw [if_pos h66]
        exact ⟨fun h => absurd h (by decide), fun hle => absurd h66 (not_lt.mpr hle)⟩
      · rw [if_neg h66]
        exact ⟨fun _ => not_lt.mp h66, fun _ => rfl⟩
  refine ⟨hint, by rw [hint]; linarith, by rw [hint]; linarith,
    by rw [hint]; intro hc; linarith, hmemb, hidx0, hidx1, hidx2, ?_, ?_⟩
  · exact List.mem_map_of_mem _ ((hmemb _).mpr rfl)
  · intro b hb
    rw [heatmapGroups] at hb
    split at hb
    · cases hb
    · have := (List.mem_filter.mp hb).2
      intro hempty
      rw [hempty] at this
      simp at this

/-- Witness: C6 on the spec's example sales values `[10, 50, 100]`, at the
middle record. -/
theorem heat_bucketing_correct_witness :
    heatIntensity
        (dMin [⟨"a", 10, (1, 2)⟩, ⟨"b", 50, (3, 4)⟩, ⟨"c", 100, (5, 6)⟩])
        (dMax [⟨"a", 10, (1, 2)⟩, ⟨"b", 50, (3, 4)⟩, ⟨"c", 100, (5, 6)⟩])
        (Record.mk "b" 50 (3, 4)).sales
      = 0.2 + 0.8 * ratioOf
          (dMin [⟨"a", 10, (1, 2)⟩, ⟨"b", 50, (3, 4)⟩, ⟨"c", 100, (5, 6)⟩])
          (dMax [⟨"a", 10, (1, 2)⟩, ⟨"b", 50, (3, 4)⟩, ⟨"c", 100, (5, 6)⟩])
          (Record.mk "b" 50 (3, 4)).sales :=
  (heat_bucketing_correct
      [⟨"a", 10, (1, 2)⟩, ⟨"b", 50, (3, 4)⟩, ⟨"c", 100, (5, 6)⟩]
      (Record.mk "b" 50 (3, 4)) (by decide) (by decide)).1

/-- Lookup in an association list (JavaScript `Map.get` / object
indexing). -/
def assocGet (m : List (String × Coord)) (k : String) : Option Coord :=
  match m with
  | [] => none
  | (k1, v) :: rest => if k1 = k then some v else assocGet rest k

/-- Update of an association list (JavaScript `Map.set` / object
assignment): replace the entry for `k` or append it. -/
def assocSet (m : List (String × Coord)) (k : String) (v : Coord) :
    List (String × Coord) :=
  match m with
  | [] => [(k, v)]
  | (k1, v1) :: rest =>
      if k1 = k then (k, v) :: rest else (k1, v1) :: assocSet rest k v

theorem assocGet_assocSet_self (m : List (String × Coord)) (k : String) (v : Coord) :
    assocGet (assocSet m k v) k = some v := by
  induction m with
  | nil => simp [assocGet, assocSet]
  | cons p rest ih =>
    obtain ⟨k1, v1⟩ := p
    by_cases h : k1 = k
    · simp [assocGet, assocSet, h]
    · simp [assocGet, assocSet, h, ih]

/-- The static seed table `pincodeCoordinates` of `geocode.js` (lines
6-19). -/
def pincodeCoordinates : List (String × Coord) :=
  [("110001", (28.6139, 77.2090)),
   ("400001", (18.9388, 72.8354)),
   ("560001", (12.9716, 77.5946)),
   ("700001", (22.5448, 88.3426)),
   ("110002", (28.6139, 78.2090)),
   ("600001", (13.0827, 80.2707)),
   ("380001", (23.0225, 72.5714)),
   ("400002", (18.9388, 72.8354)),
   ("560002", (12.9716, 77.5946)),
   ("700002", (22.5448, 88.3426)),
   ("600002", (13.0827, 80.2707)),
   ("380002", (23.0225, 72.5714))]

/-- The durable layer (`window.localStorage` under the well-known key):
`content = none` models a missing or corrupt serialized mapping, and
`writeOk = false` models a storage write that throws (quota exceeded or
storage unavailable). -/
structure DurableStore where
  content : Option (List (String × Coord))
  writeOk : Bool
deriving DecidableEq

/-- The whole cache state: the module-level in-memory `Map` plus the
durable layer. -/
structure CacheState where
  memory : List (String × Coord)
  store : DurableStore
deriving DecidableEq

/-- A cache state with empty memory and an intact, writable, empty durable
layer. -/
def emptyCache : CacheState := ⟨[], ⟨some [], true⟩⟩

/-- `readStorageCache` (lines 24-32): parse the stored mapping; a missing
or corrupt store yields the empty mapping instead of an error. -/
def readStorageCache (d : DurableStore) : List (String × Coord) :=
  match d.content with
  | some m => m
  | none => []

/-- `writeStorageCache` (lines 34-41): serialize the mapping; a write
failure is swallowed, leaving the durable layer unchanged. -/
def writeStorageCache (d : DurableStore) (m : List (String × Coord)) :
    DurableStore :=
  if d.writeOk then ⟨some m, d.writeOk⟩ else d

/-- `getCachedCoordinates` (lines 43-53): memory layer first; on a durable
hit the entry is promoted into memory; otherwise absent. Returns the
result together with the updated state. -/
def getCachedCoordinates (st : CacheState) (pincode : String) :
    Option Coord × CacheState :=
  match assocGet st.memory pincode with
  | some c => (some c, st)
  | none =>
    match assocGet (readStorageCache st.store) pincode with
    | some c => (some c, ⟨assocSet st.memory pincode c, st.store⟩)
    | none => (none, st)

/-- `setCachedCoordinates` (lines 55-60): write the entry into memory, then
merge it into the (re-read) durable mapping and write that back. -/
def setCachedCoordinates (st : CacheState) (pincode : String) (coords : Coord) :
    CacheState :=
  ⟨assocSet st.memory pincode coords,
   writeStorageCache st.store (assocSet (readStorageCache st.store) pincode coords)⟩

/-- `geocodePincode` (lines 67-104): cache layer, then the static seed
table (written through to the cache), then a single external lookup
(`api` is the Nominatim fetch, `none` covering empty results, malformed
payloads and network errors). The third component counts external calls. -/
def geocodePincode (api : String → Option Coord) (st : CacheState)
    (pincode : String) : Option Coord × CacheState × Nat :=
  match getCachedCoordinates st pincode with
  | (some c, st1) => (some c, st1, 0)
  | (none, st1) =>
    match assocGet pincodeCoordinates pincode with
    | some c => (some c, setCachedCoordinates st1 pincode c, 0)
    | none =>
      match api pincode with
      | some c => (some c, setCachedCoordinates st1 pincode c, 1)
      | none => (none, st1, 1)

theorem getCached_after_set (st : CacheState) (k : String) (v : Coord) :
    (getCachedCoordinates (setCachedCoordinates st k v) k).1 = some v := by
  rw [getCachedCoordinates, setCachedCoordinates]
  simp [assocGet_assocSet_self]

/-- C4: for every postal code in the static seed table, resolving it with a
cache that holds no conflicting entry returns exactly the seed coordinate,
performs zero external lookup calls, and writes through to the cache so a
subsequent cache get returns the same coordinate. -/
theorem seed_resolution_correct (api : String → Option Coord)
    (st : CacheState) (p : String) (c : Coord)
    (hseed : assocGet pincodeCoordinates p = some c)
    (hnoconf : ∀ c1, (getCachedCoordinates st p).1 = some c1 → c1 = c) :
    (geocodePincode api st p).1 = some c
    ∧ (geocodePincode api st p).2.2 = 0
    ∧ (getCachedCoordinates (geocodePincode api st p).2.1 p).1 = some c := by
  rw [geocodePincode]
  cases hget : getCachedCoordinates st p with
  | mk res st1 =>
    cases res with
    | some c1 =>
      have hc1 : c1 = c := hnoconf c1 (by rw [hget])
      subst hc1
      refine ⟨rfl, rfl, ?_⟩
      rw [getCachedCoordinates] at hget ⊢
      cases hmem : assocGet st.memory p with
      | some c2 =>
        rw [hmem] at hget
        cases hget
        simp [hmem]
      | none =>
        rw [hmem] at hget
        cases hstore : assocGet (readStorageCache st.store) p with
        | some c2 =>
          rw [hstore] at hget
          cases hget
          simp [assocGet_assocSet_self]
        | none =>
          rw [hstore] at hget
          cases hget
    | none =>
      rw [hseed]
      exact ⟨rfl, rfl, getCached_after_set st1 p c⟩

/-- Witness: C4 at pincode `"110001"` on the empty cache, with an external
service that always fails. -/
theorem seed_resolution_correct_witness :
    (geocodePincode (fun _ => none) emptyCache "110001").1
        = some (28.6139, 77.2090)
    ∧ (geocodePincode (fun _ => none) emptyCache "110001").2.2 = 0 := by
  have h := seed_resolution_correct (fun _ => none) emptyCache "110001"
    (28.6139, 77.2090) rfl
    (fun c1 hc => by
      rw [getCachedCoordinates] at hc
      simp [emptyCache, assocGet, readStorageCache] at hc)
  exact ⟨h.1, h.2.1⟩

/-- C9: a cache `set` writes both layers but survives a durable-layer write
failure: the in-memory write still succeeds, so a same-session `get`
returns the stored value and the failed durable write leaves the durable
layer untouched rather than raising; on a healthy store the durable layer
receives the merged mapping; and a corrupt or missing durable store is read
as the empty mapping. -/
theorem cache_set_degrades_gracefully (st : CacheState) (k : String) (v : Coord) :
    (getCachedCoordinates (setCachedCoordinates st k v) k).1 = some v
    ∧ (st.store.writeOk = false → (setCachedCoordinates st k v).store = st.store)
    ∧ (st.store.writeOk = true →
        (setCachedCoordinates st k v).store.content
          = some (assocSet (readStorageCache st.store) k v))
    ∧ (∀ w : Bool, readStorageCache ⟨none, w⟩ = []) := by
  refine ⟨getCached_after_set st k v, ?_, ?_, fun w => rfl⟩
  · intro h
    rw [setCachedCoordinates, writeStorageCache, h]
    simp
  · intro h
    rw [setCachedCoordinates, writeStorageCache, h]
    simp

/-- Witness: C9 on a cache whose durable layer rejects writes: the
in-memory write still makes the entry retrievable. -/
theorem cache_set_degrades_gracefully_witness :
    (getCachedCoordinates
        (setCachedCoordinates ⟨[], ⟨some [], false⟩⟩ "560001" (12.9716, 77.5946))
        "560001").1
      = some (12.9716, 77.5946)
    ∧ (setCachedCoordinates ⟨[], ⟨some [], false⟩⟩ "560001" (12.9716, 77.5946)).store
        = ⟨some [], false⟩ := by
  have h := cache_set_degrades_gracefully ⟨[], ⟨some [], false⟩⟩ "560001"
    (12.9716, 77.5946)
  exact ⟨h.1, h.2.1 rfl⟩

/-- An input item of the resolution loop in `loadData` (`PincodeMap.jsx`
lines 152-198): a raw record that may already carry coordinates. -/
structure Item where
  pincode : String
  sales : ℚ
  coordinates : Option Coord
deriving DecidableEq

/-- Modelled from the spec: the per-pincode outcome of
`geocodePincodeWithMeta` (imported from `src/utils/geocode`, whose
`WithMeta` variant is not among the provided sources). Per spec §4.2 a
lookup is satisfied by the cache, by the static seed table, or by one
external call that either succeeds or fails; the returned `source` is
`"api"` exactly when an external lookup call was issued. -/
inductive Outcome where
  | cache : Outcome
  | seed : Outcome
  | apiOk : Outcome
  | apiFail : Outcome
deriving DecidableEq

/-- How one record of the batch was satisfied. -/
inductive Source where
  | pre : Source
  | cache : Source
  | seed : Source
  | api : Source
deriving DecidableEq

/-- One `ResolutionProgress` update (`geocodeProgress` state):
`current`/`total`/`failures`. -/
structure Progress where
  current : Nat
  total : Nat
  failures : Nat
deriving DecidableEq

/-- What the loop body did for one record: how it was satisfied, whether
coordinates were obtained, whether the fixed 300 ms delay was awaited after
it, and the progress update emitted for it. -/
structure StepLog where
  source : Source
  accepted : Bool
  delayed : Bool
  progressAfter : Progress
deriving DecidableEq

/-- One iteration of the `loadData` loop (lines 166-190): a record carrying
coordinates is accepted directly; otherwise `geocodePincodeWithMeta` runs
and the 300 ms delay is awaited exactly when `result.source === "api"`. -/
def stepOf (omega : String → Outcome) (total current failures : Nat)
    (item : Item) : StepLog :=
  match item.coordinates with
  | some _ => ⟨Source.pre, true, false, ⟨current + 1, total, failures⟩⟩
  | none =>
    match omega item.pincode with
    | Outcome.cache => ⟨Source.cache, true, false, ⟨current + 1, total, failures⟩⟩
    | Outcome.seed => ⟨Source.seed, true, false, ⟨current + 1, total, failures⟩⟩
    | Outcome.apiOk => ⟨Source.api, true, true, ⟨current + 1, total, failures⟩⟩
    | Outcome.apiFail =>
        ⟨Source.api, false, true, ⟨current + 1, total, failures + 1⟩⟩

/-- The loop of `loadData` threaded over the batch, accumulating `index`
and `failures`. -/
def loadTraceAux (omega : String → Outcome) (total current failures : Nat) :
    List Item → List StepLog
  | [] => []
  | item :: rest =>
    stepOf omega total current failures item ::
      loadTraceAux omega total
        (stepOf omega total current failures item).progressAfter.current
        (stepOf omega total current failures item).progressAfter.failures rest

/-- `geocodeTotal` (lines 157-160): the number of records lacking
pre-resolved coordinates, fixed at batch start and used as the `total` of
every progress update. -/
def geocodeTotal (items : List Item) : Nat :=
  (items.filter (fun item => item.coordinates.isNone)).length

/-- The full per-record trace of one `loadData` batch. -/
def loadTrace (omega : String → Outcome) (items : List Item) : List StepLog :=
  loadTraceAux omega (geocodeTotal items) 0 0 items

/-- The sequence of `ResolutionProgress` updates of one batch: the initial
reset (line 162) followed by one update per record. -/
def progressUpdates (omega : String → Outcome) (items : List Item) :
    List Progress :=
  ⟨0, geocodeTotal items, 0⟩ :: (loadTrace omega items).map
    (fun s => s.progressAfter)

/-- C3 (failing input): on a batch of one pre-resolved record followed by
one record resolved externally, the progress updates are
`(0,1,0), (1,1,0), (2,1,0)`: `total` is fixed at `1` (only records lacking
coordinates are counted) while `processed` counts every record, so
`processed` equals `total` already after the first of the two records and
then exceeds it, never equalling it at batch completion. -/
theorem progress_total_mismatch_bug :
    progressUpdates (fun _ => Outcome.apiOk)
        [⟨"110001", 5, some (28.6139, 77.2090)⟩, ⟨"999999", 3, none⟩]
      = [⟨0, 1, 0⟩, ⟨1, 1, 0⟩, ⟨2, 1, 0⟩]
    ∧ (progressUpdates (fun _ => Outcome.apiOk)
        [⟨"110001", 5, some (28.6139, 77.2090)⟩, ⟨"999999", 3, none⟩]).getLast?
      ≠ some ⟨2, 2, 0⟩ := by
  constructor
  · rfl
  · intro h
    rw [show progressUpdates (fun _ => Outcome.apiOk)
        [⟨"110001", 5, some (28.6139, 77.2090)⟩, ⟨"999999", 3, none⟩]
      = [⟨0, 1, 0⟩, ⟨1, 1, 0⟩, ⟨2, 1, 0⟩] from rfl] at h
    simp at h

/-- C5 (counterexample): on a batch whose single record is resolved by an
external lookup, the fixed delay is awaited after that record even though
it is the final item of the batch. -/
theorem delay_after_final_item :
    (loadTrace (fun _ => Outcome.apiOk) [⟨"999999", 3, none⟩]).map
        (fun s => s.delayed)
      = [true] := rfl

theorem delay_iff_external_call_aux (omega : String → Outcome) (t : Nat)
    (items : List Item) :
    ∀ (c f : Nat) (s : StepLog), s ∈ loadTraceAux omega t c f items →
      (s.delayed = true ↔ s.source = Source.api) := by
  induction items with
  | nil =>
    intro c f s hs
    cases hs
  | cons item rest ih =>
    intro c f s hs
    rw [loadTraceAux] at hs
    rcases List.mem_cons.mp hs with h | h
    · subst h
      cases hco : item.coordinates with
      | some cd => simp [stepOf, hco]
      | none =>
        cases ho : omega item.pincode <;> simp [stepOf, hco, ho]
    · exact ih _ _ s h

/-- C5 (amended): within one batch the fixed 300 ms delay is awaited after
exactly the records whose resolution issued an external lookup call —
never after a record satisfied from the cache or the seed table or one
carrying pre-resolved coordinates — including after the final item when it
required an external call. -/
theorem delay_iff_external_call (omega : String → Outcome) (items : List Item)
    (s : StepLog) (hs : s ∈ loadTrace omega items) :
    s.delayed = true ↔ s.source = Source.api :=
  delay_iff_external_call_aux omega (geocodeTotal items) items 0 0 s hs

/-- Witness: C5 (amended) at a one-record batch satisfied from the cache:
no delay is awaited after it. -/
theorem delay_iff_external_call_witness :
    ((⟨Source.cache, true, false, ⟨1, 1, 0⟩⟩ : StepLog).delayed = true
      ↔ (⟨Source.cache, true, false, ⟨1, 1, 0⟩⟩ : StepLog).source = Source.api) :=
  delay_iff_external_call (fun _ => Outcome.cache) [⟨"560001", 2, none⟩]
    ⟨Source.cache, true, false, ⟨1, 1, 0⟩⟩ (by decide)

end PincodeVis
